import Mathlib

/-!
Verification development for the tile-world physics and collision subsystem
of the terrustia repository.

The Rust source is shallowly embedded:

* `src/physics.rs` — the fixed-step body integration phases (`accel_env`,
  `accel_input`, `velocity_cap`, `check_collisions`, `position_update`),
  the narrow-phase contact classification, and the broad-phase helper
  `tiles_occupied`.
* `src/terrain.rs` — the tile data model (`TileData`), the map lookup
  (`GameMap.tile_under`), the mutation observers (`tile_destruction`,
  `tile_placement`) and the startup generator `build_terrain`.
* `src/terrain/generation.rs` — the tile constructors used by
  `rasterize_canvas` when the map resource is first built.

Continuous world coordinates are modelled by `ℚ` wherever the code only
compares, adds, multiplies and takes floors/ceilings, so that concrete
runs evaluate by `decide`; the velocity cap and input normalisation need a
square root and are modelled over `ℝ`.  Machine `f32` rounding and `i16`
truncation are abstracted away; all quantities stay far from any overflow
in every concrete statement below.
-/

/-- Two dimensional vector, mirroring `glam::Vec2` with the scalar type a
parameter (`ℚ` for executable statements, `ℝ` where square roots occur). -/
structure Vec2 (α : Type) where
  x : α
  y : α
deriving DecidableEq, Repr

instance {α : Type} [Add α] : Add (Vec2 α) :=
  ⟨fun a b => ⟨a.x + b.x, a.y + b.y⟩⟩

instance {α : Type} [Mul α] : SMul α (Vec2 α) :=
  ⟨fun c v => ⟨c * v.x, c * v.y⟩⟩

theorem Vec2.add_def {α : Type} [Add α] (a b : Vec2 α) :
    a + b = ⟨a.x + b.x, a.y + b.y⟩ := rfl

theorem Vec2.smul_def {α : Type} [Mul α] (c : α) (v : Vec2 α) :
    c • v = ⟨c * v.x, c * v.y⟩ := rfl

/-- `f32::clamp` / componentwise `Vec2::clamp`: clamp `v` into `[lo, hi]`. -/
def clampScalar {α : Type} [LinearOrder α] (v lo hi : α) : α :=
  min (max v lo) hi

/-- `Aabb2d::closest_point`: clamp the point into the box given by its
center and half size (`Aabb2d::new(center, half)` has `min = center - half`
and `max = center + half`). -/
def closestPoint {α : Type} [LinearOrderedField α]
    (center half p : Vec2 α) : Vec2 α :=
  ⟨clampScalar p.x (center.x - half.x) (center.x + half.x),
   clampScalar p.y (center.y - half.y) (center.y + half.y)⟩

/-- The contact side markers of `check_collisions` (also the `Collision`
enum of `physics.rs`). -/
inductive Side where
  | Right
  | Left
  | Top
  | Bottom
deriving DecidableEq, Repr

/-- Per-tile contact classification, from the body of the tile loop of
`check_collisions` (`physics.rs` lines 135-159): compute the offset from
the body position to the closest point of the tile box, skip the tile when
either offset component exceeds the corresponding half extent of the body,
otherwise compare `|offset.x|` with `|offset.y| - height_diff` where
`height_diff = (scale.y - scale.x) / 2`. -/
def tileContact {α : Type} [LinearOrderedField α]
    (p : Vec2 α) (sx sy : α) (tileCenter tileHalf : Vec2 α) : Option Side :=
  let cp := closestPoint tileCenter tileHalf p
  let ox := p.x - cp.x
  let oy := p.y - cp.y
  if |ox| > sx / 2 then none
  else if |oy| > sy / 2 then none
  else
    let heightDiff := (sy - sx) / 2
    if |ox| > |oy| - heightDiff then
      if ox < 0 then some Side.Right else some Side.Left
    else if oy < 0 then some Side.Top
    else some Side.Bottom

/-- The four edge-contact booleans accumulated by `check_collisions`. -/
structure Flags where
  right : Bool
  left : Bool
  top : Bool
  bottom : Bool
deriving DecidableEq, Repr

/-- A nearby tile as seen by `check_collisions`: its transform translation
(the box center), its transform scale (the box size) and its solidity. -/
structure TileEnt (α : Type) where
  center : Vec2 α
  scale : Vec2 α
  solid : Bool

/-- The tile loop of `check_collisions` (`physics.rs` lines 104-160):
fold over the nearby tiles, skipping non-solid ones, and mark the side
flag returned by the per-tile classification. -/
def collisionFlags {α : Type} [LinearOrderedField α]
    (p : Vec2 α) (sx sy : α) (tiles : List (TileEnt α)) : Flags :=
  tiles.foldl
    (fun f t =>
      if t.solid = false then f
      else
        match tileContact p sx sy t.center ⟨t.scale.x / 2, t.scale.y / 2⟩ with
        | none => f
        | some Side.Right => { f with right := true }
        | some Side.Left => { f with left := true }
        | some Side.Top => { f with top := true }
        | some Side.Bottom => { f with bottom := true })
    ⟨false, false, false, false⟩

/-- The velocity correction of `check_collisions` (`physics.rs` lines
162-173): each axis independently multiplies the offending component by
`-0.05` when the matching edge flag is set. -/
def applyFlags {α : Type} [LinearOrderedField α]
    (f : Flags) (v : Vec2 α) : Vec2 α :=
  let vx :=
    if f.left = true ∧ v.x < 0 then v.x * (-(1 / 20))
    else if f.right = true ∧ v.x > 0 then v.x * (-(1 / 20))
    else v.x
  let vy :=
    if f.bottom = true ∧ v.y < 0 then v.y * (-(1 / 20))
    else if f.top = true ∧ v.y > 0 then v.y * (-(1 / 20))
    else v.y
  ⟨vx, vy⟩

/-- A physics body: `MovementState` (position, velocity) together with the
transform scale used for its bounding box. -/
structure Body (α : Type) where
  position : Vec2 α
  velocity : Vec2 α
  scale : Vec2 α

/-- The whole of `check_collisions` for one body, with the candidate tile
set (produced in the source by the broad phase) passed as a parameter:
accumulate the edge flags over the nearby tiles, then apply the velocity
correction.  Position and scale are not touched. -/
def check_collisions {α : Type} [LinearOrderedField α]
    (tiles : List (TileEnt α)) (b : Body α) : Body α :=
  { b with velocity :=
      (applyFlags (collisionFlags b.position b.scale.x b.scale.y tiles)
        b.velocity) }

/-- A half-open Rust `Range<i16>` of tile coordinates (modelled over `ℤ`). -/
structure RustRange where
  lo : ℤ
  hi : ℤ
deriving DecidableEq, Repr

/-- Membership in a Rust `Range`: `lo <= c < hi` (the upper bound is
exclusive). -/
def RustRange.containsCoord (r : RustRange) (c : ℤ) : Prop :=
  r.lo ≤ c ∧ c < r.hi

instance (r : RustRange) (c : ℤ) : Decidable (r.containsCoord c) := by
  unfold RustRange.containsCoord
  infer_instance

/-- `tiles_occupied` (`physics.rs` lines 226-236): corners of the mover
are `position ± scale / 2`; the returned ranges are
`bottom_left.x.floor_to()..top_right.x.floor_to()` and
`bottom_left.y.ceil_to()..top_right.y.ceil_to()`. -/
def tiles_occupied (position scale : Vec2 ℚ) : RustRange × RustRange :=
  let topRight : Vec2 ℚ := ⟨position.x + scale.x / 2, position.y + scale.y / 2⟩
  let bottomLeft : Vec2 ℚ := ⟨position.x - scale.x / 2, position.y - scale.y / 2⟩
  (⟨⌊bottomLeft.x⌋, ⌊topRight.x⌋⟩, ⟨⌈bottomLeft.y⌉, ⌈topRight.y⌉⟩)

/-- `GameMap.tile_under` (`terrain.rs` lines 33-43): look up the entity at
`(world.x.floor_to(), world.y.ceil_to())` in the map; `none` when the
coordinate has no entry.  The entity is modelled by the coordinate key
itself, the map by its containment predicate. -/
def tile_under (contains : ℤ × ℤ → Bool) (p : ℚ × ℚ) : Option (ℤ × ℤ) :=
  let c : ℤ × ℤ := (⌊p.1⌋, ⌈p.2⌉)
  if contains c then some c else none

/-- Coordinates populated by the `FromWorld` generator
(`terrain/generation.rs`): `x` in `left_edge..=right_edge = -151..=150`,
`y` in `bottom_edge..=top_edge = -34..=15` (map width 300, height 50, sky
height 15). -/
def fromWorldContains (c : ℤ × ℤ) : Bool :=
  decide (-151 ≤ c.1 ∧ c.1 ≤ 150 ∧ -34 ≤ c.2 ∧ c.2 ≤ 15)

/-- Coordinates populated by the startup system `build_terrain`
(`terrain.rs` lines 209-261): `i` and `j` both range over `-40..40`
(`BLOCKS_X = BLOCKS_Y = 80`, half-open Rust ranges). -/
def buildTerrainContains (c : ℤ × ℤ) : Bool :=
  decide (-40 ≤ c.1 ∧ c.1 < 40 ∧ -40 ≤ c.2 ∧ c.2 < 40)

/-- Coordinates present in the `GameMap` resource after startup: the union
of the two generation passes. -/
def gameMapContains (c : ℤ × ℤ) : Bool :=
  fromWorldContains c || buildTerrainContains c

/-- `TileData` (`terrain.rs` lines 46-61): foreground id, background id
and the solidity flag; the default is the air tile `(0, 0, false)`. -/
structure TileData where
  fg_id : ℕ
  bg_id : ℕ
  solid : Bool
deriving DecidableEq, Repr

/-- `TileData::default`: the canonical empty (air) tile. -/
def TileData.default : TileData := ⟨0, 0, false⟩

/-- The mutable state the mutation observers act on: the tile data, the
optional `BreakTimer` (its elapsed seconds) and the stream of
`ItemPickedUp` events written so far (each carrying a material id). -/
structure TileState where
  tile : TileData
  timer : Option ℚ
  events : List ℕ
deriving DecidableEq, Repr

/-- `BREAK_TIME` (`terrain.rs` line 105), in seconds. -/
def BREAK_TIME : ℚ := 3 / 5

/-- The `tile_destruction` observer (`terrain.rs` lines 108-148) for one
trigger, with the fixed timestep `dt` a parameter: non-solid tiles return
untouched; a tile without a `BreakTimer` gets a fresh one already ticked
by `dt` and returns; otherwise the timer is ticked and, once its elapsed
time is no longer below `BREAK_TIME`, an `ItemPickedUp` event carrying the
foreground id is written, the foreground id and solidity are cleared and
the timer is removed. -/
def tile_destruction (dt : ℚ) (s : TileState) : TileState :=
  if s.tile.solid = false then s
  else
    match s.timer with
    | none => { s with timer := some dt }
    | some t =>
      let ticked := t + dt
      if ticked < BREAK_TIME then { s with timer := some ticked }
      else
        { tile := { s.tile with fg_id := 0, solid := false },
          timer := none,
          events := s.events ++ [s.tile.fg_id] }

/-- The `tile_placement` observer (`terrain.rs` lines 150-167): solid
tiles return untouched; otherwise the foreground id becomes `1` and the
tile becomes solid. -/
def tile_placement (s : TileState) : TileState :=
  if s.tile.solid = true then s
  else { s with tile := { s.tile with fg_id := 1, solid := true } }

/-- One mutation operation: a destruction trigger with its fixed timestep,
or a placement trigger. -/
inductive TileOp where
  | destroy (dt : ℚ)
  | place
deriving DecidableEq, Repr

/-- Apply one mutation operation. -/
def applyOp (s : TileState) : TileOp → TileState
  | TileOp.destroy dt => tile_destruction dt s
  | TileOp.place => tile_placement s

/-- Apply a sequence of mutation operations, oldest first. -/
def applyOps (ops : List TileOp) (s : TileState) : TileState :=
  ops.foldl applyOp s

/-- An uninterrupted run of `n` destruction triggers at fixed timestep
`dt` on one tile. -/
def destroRun (dt : ℚ) : ℕ → TileState → TileState
  | 0, s => s
  | n + 1, s => tile_destruction dt (destroRun dt n s)

/-- The tile spawned by `build_terrain` (`terrain.rs` lines 214-234) at
height `j`: air above ground, grass at `j = 0`, dirt for `-10 <= j < 0`,
stone below. -/
def buildTerrainTile (j : ℤ) : TileData :=
  if 1 ≤ j then TileData.default
  else if j = 0 then ⟨2, 1, true⟩
  else if -10 ≤ j then ⟨1, 1, true⟩
  else ⟨3, 3, true⟩

/-- The tile data baked by `rasterize_canvas` (`terrain/generation.rs`
lines 259-328) for a column whose grass surface sits at `level`, as read
back (with the air default for absent entries) by the `FromWorld` spawn
loop: grass at the surface, `dirt_thickness = 5` dirt tiles below it,
stone from `bottom_edge = -34` up to the dirt, air elsewhere. -/
def rasterizeTileAt (level y : ℤ) : TileData :=
  if y = level then ⟨2, 1, true⟩
  else if level - 5 ≤ y ∧ y < level then ⟨1, 1, true⟩
  else if -34 ≤ y ∧ y < level - 5 then ⟨3, 3, true⟩
  else TileData.default

/-- The data-model invariant of the spec: a tile is solid exactly when its
foreground material is non-zero. -/
def tileInv (t : TileData) : Prop :=
  t.solid = true ↔ t.fg_id ≠ 0

instance (t : TileData) : Decidable (tileInv t) := by
  unfold tileInv
  infer_instance

/-! ## Claim C1: broad-phase range coverage of tiles_occupied -/

/-- C1 (code bug exhibited): at mover position `(0.5, 0.5)` with transform
scale `(1.5, 1.5)` (half-extents `0.75 × 0.75`, both strictly positive),
`tiles_occupied` returns the half-open ranges `-1..1` on x and `0..2` on
y.  The claim (and the doc comment of the function) demands coverage of
the inclusive rectangle `floor(cx-hx)..ceil(cx+hx) = -1..2` on each axis,
but the column `x = 1` and the row `y = -1` of that rectangle are not in
the returned ranges. -/
theorem tiles_occupied_under_coverage :
    tiles_occupied ⟨1/2, 1/2⟩ ⟨3/2, 3/2⟩ = (⟨-1, 1⟩, ⟨0, 2⟩) ∧
    ¬ (tiles_occupied ⟨1/2, 1/2⟩ ⟨3/2, 3/2⟩).1.containsCoord 1 ∧
    ⌊(1 : ℚ)/2 - 3/4⌋ ≤ 1 ∧ 1 ≤ ⌈(1 : ℚ)/2 + 3/4⌉ ∧
    ¬ (tiles_occupied ⟨1/2, 1/2⟩ ⟨3/2, 3/2⟩).2.containsCoord (-1) ∧
    ⌊(1 : ℚ)/2 - 3/4⌋ ≤ -1 ∧ -1 ≤ ⌈(1 : ℚ)/2 + 3/4⌉ := by
  have h1 : ⌊(1 : ℚ)/2 - (3/2 : ℚ)/2⌋ = -1 := by rw [Int.floor_eq_iff]; norm_num
  have h2 : ⌊(1 : ℚ)/2 + (3/2 : ℚ)/2⌋ = 1 := by rw [Int.floor_eq_iff]; norm_num
  have h3 : ⌈(1 : ℚ)/2 - (3/2 : ℚ)/2⌉ = 0 := by rw [Int.ceil_eq_iff]; norm_num
  have h4 : ⌈(1 : ℚ)/2 + (3/2 : ℚ)/2⌉ = 2 := by rw [Int.ceil_eq_iff]; norm_num
  have h5 : ⌊(1 : ℚ)/2 - 3/4⌋ = -1 := by rw [Int.floor_eq_iff]; norm_num
  have h6 : ⌈(1 : ℚ)/2 + 3/4⌉ = 2 := by rw [Int.ceil_eq_iff]; norm_num
  have hocc : tiles_occupied ⟨1/2, 1/2⟩ ⟨3/2, 3/2⟩ = (⟨-1, 1⟩, ⟨0, 2⟩) := by
    unfold tiles_occupied
    simp only [h1, h2, h3, h4]
  refine ⟨hocc, ?_, ?_, ?_, ?_, ?_, ?_⟩
  · rw [hocc]
    unfold RustRange.containsCoord
    norm_num
  · rw [h5]; norm_num
  · rw [h6]; norm_num
  · rw [hocc]
    unfold RustRange.containsCoord
    norm_num
  · rw [h5]
  · rw [h6]; norm_num

/-! ## Claim C3: pointer-to-tile coordinate resolution convention -/

/-- C3 (counterexample): resolving the world point `(0.5, 0.5)` looks up
the coordinate `(0, 1)` — floor on x but ceiling on y — not the
`(floor, floor)` pair `(0, 0)` the claim states. -/
theorem tile_under_not_floor_floor :
    tile_under gameMapContains (1/2, 1/2) = some (0, 1) ∧
    ((0, 1) : ℤ × ℤ) ≠ (⌊(1 : ℚ)/2⌋, ⌊(1 : ℚ)/2⌋) := by
  have hf : ⌊(1 : ℚ)/2⌋ = 0 := by rw [Int.floor_eq_iff]; norm_num
  have hc : ⌈(1 : ℚ)/2⌉ = 1 := by rw [Int.ceil_eq_iff]; norm_num
  constructor
  · unfold tile_under
    simp only [hf, hc]
    rfl
  · rw [hf]
    simp

/-- C3 (amended): resolution applies floor on x and ceiling on y: the
lookup returns the tile at `(i, j)` exactly when that coordinate is
present and the point lies in the world square `[i, i+1) × (j-1, j]` of
that tile (tiles are spawned centered at `(i + 0.5, j - 0.5)`). -/
theorem tile_under_resolution (contains : ℤ × ℤ → Bool) (p : ℚ × ℚ)
    (i j : ℤ) :
    tile_under contains p = some (i, j) ↔
      (contains (i, j) = true ∧
        (i : ℚ) ≤ p.1 ∧ p.1 < i + 1 ∧ (j : ℚ) - 1 < p.2 ∧ p.2 ≤ j) := by
  unfold tile_under
  by_cases h : contains (⌊p.1⌋, ⌈p.2⌉) = true
  · rw [if_pos h]
    constructor
    · intro hs
      have hij : (⌊p.1⌋, ⌈p.2⌉) = (i, j) := Option.some.inj hs
      have hi : ⌊p.1⌋ = i := congrArg Prod.fst hij
      have hj : ⌈p.2⌉ = j := congrArg Prod.snd hij
      have hfl := (Int.floor_eq_iff (α := ℚ)).mp hi
      have hcl := (Int.ceil_eq_iff (α := ℚ) (z := j) (a := p.2)).mp hj
      refine ⟨by rw [← hij]; exact h, hfl.1, ?_, ?_, hcl.2⟩
      · exact_mod_cast hfl.2
      · exact_mod_cast hcl.1
    · rintro ⟨hc, h1, h2, h3, h4⟩
      have hi : ⌊p.1⌋ = i := (Int.floor_eq_iff (α := ℚ)).mpr ⟨h1, by exact_mod_cast h2⟩
      have hj : ⌈p.2⌉ = j :=
        (Int.ceil_eq_iff (α := ℚ) (z := j) (a := p.2)).mpr ⟨by exact_mod_cast h3, h4⟩
      rw [hi, hj]
  · rw [if_neg h]
    constructor
    · intro hs
      exact absurd hs (by simp)
    · rintro ⟨hc, h1, h2, h3, h4⟩
      have hi : ⌊p.1⌋ = i := (Int.floor_eq_iff (α := ℚ)).mpr ⟨h1, by exact_mod_cast h2⟩
      have hj : ⌈p.2⌉ = j :=
        (Int.ceil_eq_iff (α := ℚ) (z := j) (a := p.2)).mpr ⟨by exact_mod_cast h3, h4⟩
      exact absurd (hi ▸ hj ▸ hc) h

/-! ## Claim C8: totality of map lookup -/

/-- C8 (counterexample): at the world point `(1000.5, 1000.5)` — whose
resolved coordinate `(1000, 1001)` lies outside both generation passes —
the lookup returns `none`: it does not resolve to any tile, in particular
not to the canonical empty tile the claim states. -/
theorem tile_under_absent_is_none :
    tile_under gameMapContains (2001/2, 2001/2) = none ∧
    ∀ e : ℤ × ℤ, tile_under gameMapContains (2001/2, 2001/2) ≠ some e := by
  have h : tile_under gameMapContains (2001/2, 2001/2) = none := by
    have hf : ⌊(2001 : ℚ)/2⌋ = 1000 := by rw [Int.floor_eq_iff]; norm_num
    have hc : ⌈(2001 : ℚ)/2⌉ = 1001 := by rw [Int.ceil_eq_iff]; norm_num
    unfold tile_under
    simp only [hf, hc]
    rfl
  exact ⟨h, fun e he => by rw [h] at he; exact Option.noConfusion he⟩

/-- C8 (amended): the lookup is total and never panics — every query
returns either the entity of a coordinate actually present in the map or
`none`; a coordinate absent from the map yields `none` (so callers simply
skip the interaction) rather than a canonical empty tile. -/
theorem tile_under_total (contains : ℤ × ℤ → Bool) (p : ℚ × ℚ) :
    (∃ c, tile_under contains p = some c ∧ contains c = true) ∨
      tile_under contains p = none := by
  unfold tile_under
  by_cases h : contains (⌊p.1⌋, ⌈p.2⌉) = true
  · exact Or.inl ⟨(⌊p.1⌋, ⌈p.2⌉), if_pos h, h⟩
  · exact Or.inr (if_neg h)

/-! ## Claim C5: invalid mutation targets are silent no-ops -/

/-- C5: a destruction trigger on a non-solid tile and a placement trigger
on a solid tile both return the state completely unchanged (tile fields,
break timer and event stream). -/
theorem invalid_mutation_target_noop (dt : ℚ) (s t : TileState)
    (hs : s.tile.solid = false) (ht : t.tile.solid = true) :
    tile_destruction dt s = s ∧ tile_placement t = t := by
  constructor
  · unfold tile_destruction
    rw [hs]
    simp
  · unfold tile_placement
    rw [ht]
    simp

/-- C5 witness: the air tile `(0, 1, false)` survives a destruction
trigger untouched and the dirt tile `(1, 1, true)` survives a placement
trigger untouched. -/
theorem invalid_mutation_target_noop_witness :
    tile_destruction 1 ⟨⟨0, 1, false⟩, none, []⟩ = ⟨⟨0, 1, false⟩, none, []⟩ ∧
    tile_placement ⟨⟨1, 1, true⟩, none, []⟩ = ⟨⟨1, 1, true⟩, none, []⟩ :=
  invalid_mutation_target_noop 1 ⟨⟨0, 1, false⟩, none, []⟩
    ⟨⟨1, 1, true⟩, none, []⟩ rfl rfl

/-! ## Evaluation lemmas for the destruction observer -/

/-- A destruction trigger on a non-solid tile returns the state
unchanged. -/
theorem tile_destruction_nonsolid (dt : ℚ) (s : TileState)
    (h : s.tile.solid = false) : tile_destruction dt s = s := by
  unfold tile_destruction
  rw [h]
  simp

/-- A destruction trigger on a solid tile without a break timer creates
one, already ticked by the timestep, and commits nothing. -/
theorem tile_destruction_fresh (dt : ℚ) (t : TileData) (ev : List ℕ)
    (h : t.solid = true) :
    tile_destruction dt ⟨t, none, ev⟩ = ⟨t, some dt, ev⟩ := by
  unfold tile_destruction
  rw [show (⟨t, none, ev⟩ : TileState).tile.solid = true from h]
  simp

/-- A destruction trigger on a solid tile whose ticked timer stays below
the threshold only advances the timer. -/
theorem tile_destruction_tick (dt x : ℚ) (t : TileData) (ev : List ℕ)
    (h : t.solid = true) (hlt : x + dt < BREAK_TIME) :
    tile_destruction dt ⟨t, some x, ev⟩ = ⟨t, some (x + dt), ev⟩ := by
  unfold tile_destruction
  rw [show (⟨t, some x, ev⟩ : TileState).tile.solid = true from h]
  simp [hlt]

/-- A destruction trigger on a solid tile whose ticked timer reaches the
threshold commits: the event carrying the old foreground id is written,
the foreground id and solidity are cleared, and the timer is removed. -/
theorem tile_destruction_commit (dt x : ℚ) (t : TileData) (ev : List ℕ)
    (h : t.solid = true) (hge : BREAK_TIME ≤ x + dt) :
    tile_destruction dt ⟨t, some x, ev⟩ =
      ⟨⟨0, t.bg_id, false⟩, none, ev ++ [t.fg_id]⟩ := by
  unfold tile_destruction
  rw [show (⟨t, some x, ev⟩ : TileState).tile.solid = true from h]
  simp [not_lt.mpr hge]

/-! ## Claim C2: the solidity invariant under mutation -/

/-- Preservation: one mutation operation keeps the solidity invariant. -/
theorem tileInv_applyOp (s : TileState) (op : TileOp)
    (h : tileInv s.tile) : tileInv (applyOp s op).tile := by
  cases op with
  | place =>
    show tileInv (tile_placement s).tile
    unfold tile_placement
    by_cases hs : s.tile.solid = true
    · rw [if_pos hs]
      exact h
    · rw [if_neg hs]
      unfold tileInv
      simp
  | destroy dt =>
    show tileInv (tile_destruction dt s).tile
    by_cases hs : s.tile.solid = false
    · rw [tile_destruction_nonsolid dt s hs]
      exact h
    · have hs' : s.tile.solid = true := by
        revert hs
        cases s.tile.solid <;> simp
      obtain ⟨t, tm, ev⟩ := s
      cases tm with
      | none =>
        rw [tile_destruction_fresh dt t ev hs']
        exact h
      | some x =>
        by_cases ht : x + dt < BREAK_TIME
        · rw [tile_destruction_tick dt x t ev hs' ht]
          exact h
        · rw [tile_destruction_commit dt x t ev hs' (not_lt.mp ht)]
          unfold tileInv
          simp

/-- Preservation over a whole operation sequence. -/
theorem tileInv_applyOps (ops : List TileOp) (s : TileState)
    (h : tileInv s.tile) : tileInv (applyOps ops s).tile := by
  induction ops generalizing s with
  | nil => exact h
  | cons op rest ih => exact ih (applyOp s op) (tileInv_applyOp s op h)

/-- Every tile constructor of the startup generator `build_terrain`
satisfies the invariant. -/
theorem tileInv_buildTerrainTile (j : ℤ) : tileInv (buildTerrainTile j) := by
  unfold buildTerrainTile
  split_ifs <;> first | exact (by decide : tileInv TileData.default) | decide

/-- Every tile produced by `rasterize_canvas` plus the air default of the
`FromWorld` spawn loop satisfies the invariant. -/
theorem tileInv_rasterizeTileAt (level y : ℤ) :
    tileInv (rasterizeTileAt level y) := by
  unfold rasterizeTileAt
  split_ifs <;> first | exact (by decide : tileInv TileData.default) | decide

/-- C2: for every tile of the initial world — whether spawned by
`build_terrain` or baked by `rasterize_canvas` — and every sequence of
place and destroy operations applied to it, the resulting tile satisfies
`solid == (foreground_material != 0)`: generation establishes the
equivalence and both mutations preserve it (destruction clears both
fields together, placement sets both together). -/
theorem solid_iff_foreground (ops : List TileOp) (j level y : ℤ) :
    tileInv (applyOps ops ⟨buildTerrainTile j, none, []⟩).tile ∧
    tileInv (applyOps ops ⟨rasterizeTileAt level y, none, []⟩).tile :=
  ⟨tileInv_applyOps ops _ (tileInv_buildTerrainTile j),
   tileInv_applyOps ops _ (tileInv_rasterizeTileAt level y)⟩

/-! ## Claim C4: break-commit timing of tile_destruction -/

/-- C4 (counterexample): with a fixed step of `dt = 0.6` seconds the
accumulated elapsed time already reaches the `BREAK_TIME` threshold at the
first destruction step (`1 * dt = 0.6`), yet after that step the tile is
still solid, no pickup event has been emitted and a break timer is still
pending: the creation step never commits, so the destruction does not
commit at the first step whose accumulated elapsed time reaches the
threshold. -/
theorem break_commit_first_step_miss :
    BREAK_TIME ≤ (1 : ℚ) * (3/5) ∧
    (destroRun (3/5) 1 ⟨⟨1, 1, true⟩, none, []⟩).tile.solid = true ∧
    (destroRun (3/5) 1 ⟨⟨1, 1, true⟩, none, []⟩).events = [] ∧
    (destroRun (3/5) 1 ⟨⟨1, 1, true⟩, none, []⟩).timer = some (3/5) := by
  have hstep : destroRun (3/5) 1 ⟨⟨1, 1, true⟩, none, []⟩ =
      ⟨⟨1, 1, true⟩, some (3/5), []⟩ := by
    show tile_destruction (3/5) ⟨⟨1, 1, true⟩, none, []⟩ = _
    exact tile_destruction_fresh (3/5) ⟨1, 1, true⟩ [] rfl
  rw [hstep]
  exact ⟨by norm_num [BREAK_TIME], rfl, rfl, rfl⟩

/-- C4 (amended): for a fixed step shorter than the threshold
(`0 < dt < 0.6`), an uninterrupted destruction run on a solid tile with
material `m` commits exactly once, at the first step `k` whose
accumulated elapsed time `k * dt` reaches `BREAK_TIME`, and never before:
while `k * dt < BREAK_TIME` the tile is untouched and no event has been
written (only the break timer advances); from the first step with
`BREAK_TIME <= k * dt` onwards the tile is cleared (`fg_id = 0`,
non-solid, background kept), the break timer is discarded, and the event
stream holds exactly one pickup carrying `m`. -/
theorem break_commit_exactness (dt : ℚ) (m bg : ℕ) (k : ℕ)
    (h0 : 0 < dt) (h1 : dt < BREAK_TIME) :
    ((k : ℚ) * dt < BREAK_TIME →
      destroRun dt k ⟨⟨m, bg, true⟩, none, []⟩ =
        ⟨⟨m, bg, true⟩, if k = 0 then none else some ((k : ℚ) * dt), []⟩) ∧
    (BREAK_TIME ≤ (k : ℚ) * dt →
      destroRun dt k ⟨⟨m, bg, true⟩, none, []⟩ = ⟨⟨0, bg, false⟩, none, [m]⟩) := by
  induction k with
  | zero =>
    constructor
    · intro _
      simp [destroRun]
    · intro h
      norm_num [BREAK_TIME] at h
  | succ k ih =>
    have hcast : ((k + 1 : ℕ) : ℚ) * dt = (k : ℚ) * dt + dt := by
      push_cast
      ring
    have hrun : destroRun dt (k + 1) ⟨⟨m, bg, true⟩, none, []⟩ =
        tile_destruction dt (destroRun dt k ⟨⟨m, bg, true⟩, none, []⟩) := rfl
    constructor
    · intro h
      rw [hcast] at h
      have hkd : (k : ℚ) * dt < BREAK_TIME := by linarith
      by_cases hk0 : k = 0
      · subst hk0
        rw [hrun, ih.1 hkd, if_pos rfl,
          tile_destruction_fresh dt ⟨m, bg, true⟩ [] rfl,
          if_neg (Nat.succ_ne_zero 0)]
        have h1dt : ((0 + 1 : ℕ) : ℚ) * dt = dt := by
          push_cast
          ring
        rw [h1dt]
      · rw [hrun, ih.1 hkd, if_neg hk0,
          tile_destruction_tick dt ((k : ℚ) * dt) ⟨m, bg, true⟩ [] rfl h,
          if_neg (Nat.succ_ne_zero k), hcast]
    · intro h
      rw [hcast] at h
      by_cases hkd : (k : ℚ) * dt < BREAK_TIME
      · have hk0 : k ≠ 0 := by
          intro h0'
          subst h0'
          norm_num at h
          linarith
        rw [hrun, ih.1 hkd, if_neg hk0,
          tile_destruction_commit dt ((k : ℚ) * dt) ⟨m, bg, true⟩ [] rfl h]
        simp
      · push_neg at hkd
        rw [hrun, ih.2 hkd]
        exact tile_destruction_nonsolid dt _ rfl

/-- C4 witness for the amended theorem: with `dt = 0.5` the run commits at
step 2 (`2 * 0.5 = 1` reaches the threshold `0.6`), leaving the cleared
tile, no timer and the single pickup event carrying the destroyed
material id `1`. -/
theorem break_commit_exactness_witness :
    destroRun (1/2) 2 ⟨⟨1, 1, true⟩, none, []⟩ = ⟨⟨0, 1, false⟩, none, [1]⟩ :=
  (break_commit_exactness (1/2) 1 1 2 (by norm_num)
    (by norm_num [BREAK_TIME])).2 (by norm_num [BREAK_TIME])

/-! ## Claim C7: contact-side classification -/

/-- Clamping a value already at or below the lower bound of a non-empty
interval yields the lower bound. -/
theorem clampScalar_at_lo {α : Type} [LinearOrder α] (v lo hi : α)
    (h1 : v ≤ lo) (h2 : lo ≤ hi) : clampScalar v lo hi = lo := by
  unfold clampScalar
  rw [max_eq_right h1, min_eq_left h2]

/-- Clamping a value already at or above the upper bound of a non-empty
interval yields the upper bound. -/
theorem clampScalar_at_hi {α : Type} [LinearOrder α] (v lo hi : α)
    (h1 : hi ≤ v) (h2 : lo ≤ hi) : clampScalar v lo hi = hi := by
  unfold clampScalar
  rw [max_eq_left (le_trans h2 h1), min_eq_right h1]

/-- Clamping a value inside the interval leaves it unchanged. -/
theorem clampScalar_inside {α : Type} [LinearOrder α] (v lo hi : α)
    (h1 : lo ≤ v) (h2 : v ≤ hi) : clampScalar v lo hi = v := by
  unfold clampScalar
  rw [max_eq_left h1, min_eq_left h2]

/-- Unfolding lemma for the per-tile classification on explicit
components. -/
theorem tileContact_eval (px py sx sy tcx tcy thx thy : ℚ) :
    tileContact ⟨px, py⟩ sx sy ⟨tcx, tcy⟩ ⟨thx, thy⟩ =
      (let ox := px - clampScalar px (tcx - thx) (tcx + thx)
       let oy := py - clampScalar py (tcy - thy) (tcy + thy)
       if |ox| > sx / 2 then none
       else if |oy| > sy / 2 then none
       else if |ox| > |oy| - (sy - sx) / 2 then
         if ox < 0 then some Side.Right else some Side.Left
       else if oy < 0 then some Side.Top
       else some Side.Bottom) := rfl

/-- A body hovering directly above the tile (position on the tile center
vertical, overlap depth `d` at most the body half height and at least the
height correction term) is classified as a Bottom contact. -/
theorem tileContact_above (sx sy tcx tcy thx thy d : ℚ)
    (hsx : 0 < sx) (hthx : 0 ≤ thx) (hthy : 0 ≤ thy) (hd0 : 0 < d)
    (hlo : (sy - sx) / 2 ≤ d) (hhi : d ≤ sy / 2) :
    tileContact ⟨tcx, tcy + thy + d⟩ sx sy ⟨tcx, tcy⟩ ⟨thx, thy⟩ =
      some Side.Bottom := by
  have hx : clampScalar tcx (tcx - thx) (tcx + thx) = tcx :=
    clampScalar_inside _ _ _ (by linarith) (by linarith)
  have hy : clampScalar (tcy + thy + d) (tcy - thy) (tcy + thy) = tcy + thy :=
    clampScalar_at_hi _ _ _ (by linarith) (by linarith)
  rw [tileContact_eval]
  simp only [hx, hy]
  rw [show tcx - tcx = 0 from by ring,
    show tcy + thy + d - (tcy + thy) = d from by ring,
    abs_zero, abs_of_pos hd0]
  rw [if_neg (not_lt.mpr (by linarith : (0 : ℚ) ≤ sx / 2)),
    if_neg (not_lt.mpr hhi),
    if_neg (not_lt.mpr (by linarith : (0 : ℚ) ≤ d - (sy - sx) / 2)),
    if_neg (not_lt.mpr (le_of_lt hd0))]

/-- A body directly below the tile with overlap depth `d` is classified
as a Top contact. -/
theorem tileContact_below (sx sy tcx tcy thx thy d : ℚ)
    (hsx : 0 < sx) (hthx : 0 ≤ thx) (hthy : 0 ≤ thy) (hd0 : 0 < d)
    (hlo : (sy - sx) / 2 ≤ d) (hhi : d ≤ sy / 2) :
    tileContact ⟨tcx, tcy - thy - d⟩ sx sy ⟨tcx, tcy⟩ ⟨thx, thy⟩ =
      some Side.Top := by
  have hx : clampScalar tcx (tcx - thx) (tcx + thx) = tcx :=
    clampScalar_inside _ _ _ (by linarith) (by linarith)
  have hy : clampScalar (tcy - thy - d) (tcy - thy) (tcy + thy) = tcy - thy :=
    clampScalar_at_lo _ _ _ (by linarith) (by linarith)
  rw [tileContact_eval]
  simp only [hx, hy]
  rw [show tcx - tcx = 0 from by ring,
    show tcy - thy - d - (tcy - thy) = -d from by ring,
    abs_zero, abs_neg, abs_of_pos hd0]
  rw [if_neg (not_lt.mpr (by linarith : (0 : ℚ) ≤ sx / 2)),
    if_neg (not_lt.mpr hhi),
    if_neg (not_lt.mpr (by linarith : (0 : ℚ) ≤ d - (sy - sx) / 2)),
    if_pos (by linarith : -d < (0 : ℚ))]

/-- A body directly to the left of the tile with overlap depth `d` is
classified as a Right contact (the tile sits at the right edge of the
body). -/
theorem tileContact_leftside (sx sy tcx tcy thx thy d : ℚ)
    (hsy : 0 < sy) (hthx : 0 ≤ thx) (hthy : 0 ≤ thy) (hd0 : 0 < d)
    (hlo : (sx - sy) / 2 < d) (hhi : d ≤ sx / 2) :
    tileContact ⟨tcx - thx - d, tcy⟩ sx sy ⟨tcx, tcy⟩ ⟨thx, thy⟩ =
      some Side.Right := by
  have hx : clampScalar (tcx - thx - d) (tcx - thx) (tcx + thx) = tcx - thx :=
    clampScalar_at_lo _ _ _ (by linarith) (by linarith)
  have hy : clampScalar tcy (tcy - thy) (tcy + thy) = tcy :=
    clampScalar_inside _ _ _ (by linarith) (by linarith)
  rw [tileContact_eval]
  simp only [hx, hy]
  rw [show tcx - thx - d - (tcx - thx) = -d from by ring,
    show tcy - tcy = 0 from by ring,
    abs_zero, abs_neg, abs_of_pos hd0]
  rw [if_neg (not_lt.mpr hhi),
    if_neg (not_lt.mpr (by linarith : (0 : ℚ) ≤ sy / 2)),
    if_pos (by linarith : (0 : ℚ) - (sy - sx) / 2 < d),
    if_pos (by linarith : -d < (0 : ℚ))]

/-- A body directly to the right of the tile with overlap depth `d` is
classified as a Left contact (the tile sits at the left edge of the
body). -/
theorem tileContact_rightside (sx sy tcx tcy thx thy d : ℚ)
    (hsy : 0 < sy) (hthx : 0 ≤ thx) (hthy : 0 ≤ thy) (hd0 : 0 < d)
    (hlo : (sx - sy) / 2 < d) (hhi : d ≤ sx / 2) :
    tileContact ⟨tcx + thx + d, tcy⟩ sx sy ⟨tcx, tcy⟩ ⟨thx, thy⟩ =
      some Side.Left := by
  have hx : clampScalar (tcx + thx + d) (tcx - thx) (tcx + thx) = tcx + thx :=
    clampScalar_at_hi _ _ _ (by linarith) (by linarith)
  have hy : clampScalar tcy (tcy - thy) (tcy + thy) = tcy :=
    clampScalar_inside _ _ _ (by linarith) (by linarith)
  rw [tileContact_eval]
  simp only [hx, hy]
  rw [show tcx + thx + d - (tcx + thx) = d from by ring,
    show tcy - tcy = 0 from by ring,
    abs_zero, abs_of_pos hd0]
  rw [if_neg (not_lt.mpr hhi),
    if_neg (not_lt.mpr (by linarith : (0 : ℚ) ≤ sy / 2)),
    if_pos (by linarith : (0 : ℚ) - (sy - sx) / 2 < d),
    if_neg (not_lt.mpr (le_of_lt hd0))]

/-- C7 (counterexample): a 2-wide, 3-tall body whose center sits at
`(0.5, 0.9)`, directly above the solid unit tile centered at
`(0.5, -0.5)` and overlapping it by depth `0.9`, is classified as a
Bottom contact, not the Top contact the claim states for an approach from
directly above. -/
theorem contact_above_not_top :
    tileContact (α := ℚ) ⟨1/2, 9/10⟩ 2 3 ⟨1/2, -(1/2)⟩ ⟨1/2, 1/2⟩ =
      some Side.Bottom ∧
    some Side.Bottom ≠ some Side.Top := by
  have h := tileContact_above 2 3 (1/2) (-1/2) (1/2) (1/2) (9/10)
    (by norm_num) (by norm_num) (by norm_num) (by norm_num)
    (by norm_num) (by norm_num)
  norm_num at h
  exact ⟨h, by simp⟩

/-- C7 (amended): the classification compares `|offset.x|` against
`|offset.y|` adjusted by half the difference of the body height and
width, yielding Right when the horizontal offset dominates with negative
`offset.x`, else Left, otherwise Top for negative `offset.y`, else
Bottom — so with overlap depth `d` within the given bounds, a body
approaching the tile from directly above yields Bottom, from directly
below Top, from directly left Right, and from directly right Left (the
side names the edge of the body in contact, which is the side whose
velocity component the response then damps). -/
theorem contact_side_classification (sx sy tcx tcy thx thy d : ℚ)
    (hsx : 0 < sx) (hsy : 0 < sy) (hthx : 0 ≤ thx) (hthy : 0 ≤ thy)
    (hd0 : 0 < d) (hvlo : (sy - sx) / 2 ≤ d) (hvhi : d ≤ sy / 2)
    (hhlo : (sx - sy) / 2 < d) (hhhi : d ≤ sx / 2) :
    tileContact ⟨tcx, tcy + thy + d⟩ sx sy ⟨tcx, tcy⟩ ⟨thx, thy⟩ =
      some Side.Bottom ∧
    tileContact ⟨tcx, tcy - thy - d⟩ sx sy ⟨tcx, tcy⟩ ⟨thx, thy⟩ =
      some Side.Top ∧
    tileContact ⟨tcx - thx - d, tcy⟩ sx sy ⟨tcx, tcy⟩ ⟨thx, thy⟩ =
      some Side.Right ∧
    tileContact ⟨tcx + thx + d, tcy⟩ sx sy ⟨tcx, tcy⟩ ⟨thx, thy⟩ =
      some Side.Left :=
  ⟨tileContact_above sx sy tcx tcy thx thy d hsx hthx hthy hd0 hvlo hvhi,
   tileContact_below sx sy tcx tcy thx thy d hsx hthx hthy hd0 hvlo hvhi,
   tileContact_leftside sx sy tcx tcy thx thy d hsy hthx hthy hd0 hhlo hhhi,
   tileContact_rightside sx sy tcx tcy thx thy d hsy hthx hthy hd0 hhlo hhhi⟩

/-- C7 witness for the amended theorem: the 2-wide 3-tall player body
overlapping the solid unit tile centered at `(0.5, -0.5)` by depth `0.9`
from each of the four directions. -/
theorem contact_side_classification_witness :
    tileContact (α := ℚ) ⟨1/2, -1/2 + 1/2 + 9/10⟩ 2 3 ⟨1/2, -1/2⟩ ⟨1/2, 1/2⟩ =
      some Side.Bottom ∧
    tileContact (α := ℚ) ⟨1/2, -1/2 - 1/2 - 9/10⟩ 2 3 ⟨1/2, -1/2⟩ ⟨1/2, 1/2⟩ =
      some Side.Top ∧
    tileContact (α := ℚ) ⟨1/2 - 1/2 - 9/10, -1/2⟩ 2 3 ⟨1/2, -1/2⟩ ⟨1/2, 1/2⟩ =
      some Side.Right ∧
    tileContact (α := ℚ) ⟨1/2 + 1/2 + 9/10, -1/2⟩ 2 3 ⟨1/2, -1/2⟩ ⟨1/2, 1/2⟩ =
      some Side.Left :=
  contact_side_classification 2 3 (1/2) (-1/2) (1/2) (1/2) (9/10)
    (by norm_num) (by norm_num) (by norm_num) (by norm_num) (by norm_num)
    (by norm_num) (by norm_num) (by norm_num) (by norm_num)

/-! ## Claim C10: collision correction never increases speed -/

/-- Damping a component by the factor `-0.05` never increases its
magnitude. -/
theorem damp_abs_le (a : ℚ) : |a * (-(1 / 20))| ≤ |a| := by
  rw [abs_mul]
  have h : |(-(1 / 20) : ℚ)| = 1 / 20 := by norm_num
  rw [h]
  nlinarith [abs_nonneg a]

/-- C10: for every body and every candidate tile set, `check_collisions`
leaves each velocity component either unchanged or multiplied by `-0.05`;
hence the magnitude of each component never grows, and the position of
the body is untouched by the collision pass. -/
theorem check_collisions_no_speedup (tiles : List (TileEnt ℚ)) (b : Body ℚ) :
    ((check_collisions tiles b).velocity.x = b.velocity.x ∨
      (check_collisions tiles b).velocity.x = b.velocity.x * (-(1 / 20))) ∧
    ((check_collisions tiles b).velocity.y = b.velocity.y ∨
      (check_collisions tiles b).velocity.y = b.velocity.y * (-(1 / 20))) ∧
    |(check_collisions tiles b).velocity.x| ≤ |b.velocity.x| ∧
    |(check_collisions tiles b).velocity.y| ≤ |b.velocity.y| ∧
    (check_collisions tiles b).position = b.position := by
  have hvx : (check_collisions tiles b).velocity.x =
      (if (collisionFlags b.position b.scale.x b.scale.y tiles).left = true ∧
          b.velocity.x < 0 then b.velocity.x * (-(1 / 20))
       else if (collisionFlags b.position b.scale.x b.scale.y tiles).right = true ∧
          b.velocity.x > 0 then b.velocity.x * (-(1 / 20))
       else b.velocity.x) := rfl
  have hvy : (check_collisions tiles b).velocity.y =
      (if (collisionFlags b.position b.scale.x b.scale.y tiles).bottom = true ∧
          b.velocity.y < 0 then b.velocity.y * (-(1 / 20))
       else if (collisionFlags b.position b.scale.x b.scale.y tiles).top = true ∧
          b.velocity.y > 0 then b.velocity.y * (-(1 / 20))
       else b.velocity.y) := rfl
  refine ⟨?_, ?_, ?_, ?_, rfl⟩
  · rw [hvx]
    split_ifs <;> simp
  · rw [hvy]
    split_ifs <;> simp
  · rw [hvx]
    split_ifs with h1 h2
    · exact damp_abs_le _
    · exact damp_abs_le _
    · exact le_refl _
  · rw [hvy]
    split_ifs with h1 h2
    · exact damp_abs_le _
    · exact damp_abs_le _
    · exact le_refl _

/-! ## The fixed-step integration phases over the reals -/

/-- `glam::Vec2::length`: the Euclidean norm. -/
noncomputable def Vec2.length (v : Vec2 ℝ) : ℝ :=
  Real.sqrt (v.x ^ 2 + v.y ^ 2)

/-- `VELOCITY_MAX` (`physics.rs` line 86). -/
noncomputable def VELOCITY_MAX : ℝ := 300

/-- `DRAG_FACTOR` (`physics.rs` line 45). -/
noncomputable def DRAG_FACTOR : ℝ := 1 / 20

/-- `GRAVITY` (`physics.rs` line 46). -/
noncomputable def GRAVITY : ℝ := -15

/-- `PLAYER_ACCEL` (`physics.rs` line 56). -/
noncomputable def PLAYER_ACCEL : ℝ := 60

/-- `glam::Vec2::clamp_length_max`: when the squared length exceeds the
squared maximum, rescale by `max / length`, otherwise return the vector
unchanged. -/
noncomputable def clamp_length_max (v : Vec2 ℝ) (m : ℝ) : Vec2 ℝ :=
  if m ^ 2 < v.x ^ 2 + v.y ^ 2 then
    (m / Real.sqrt (v.x ^ 2 + v.y ^ 2)) • v
  else v

/-- The per-mover body of `velocity_cap` (`physics.rs` lines 88-96):
velocities shorter than `VELOCITY_MAX` pass unchanged (the `continue`
branch), otherwise the vector is clamped to that length. -/
noncomputable def cap_velocity (v : Vec2 ℝ) : Vec2 ℝ :=
  if Vec2.length v < VELOCITY_MAX then v else clamp_length_max v VELOCITY_MAX

/-- `glam::Vec2::normalize_or_zero`: the unit vector in the same
direction, or zero for the zero vector. -/
noncomputable def normalize_or_zero (v : Vec2 ℝ) : Vec2 ℝ :=
  if Vec2.length v = 0 then ⟨0, 0⟩ else (1 / Vec2.length v) • v

/-- The held movement keys read by `accel_input`. -/
structure Keys where
  w : Bool
  a : Bool
  s : Bool
  d : Bool

/-- `accel_env` (`physics.rs` lines 48-54) for one mover: apply the drag
impulse `velocity * DRAG_FACTOR * dt` plus the gravity impulse
`(0, GRAVITY * dt)`. -/
noncomputable def accel_env (dt : ℝ) (b : Body ℝ) : Body ℝ :=
  { b with velocity :=
      b.velocity + ((DRAG_FACTOR * dt) • b.velocity + ⟨0, GRAVITY * dt⟩) }

/-- `accel_input` (`physics.rs` lines 58-84): accumulate the raw input
direction from the four held keys (W up, A left, S down, D right),
normalize-or-zero it, and add the impulse scaled by `PLAYER_ACCEL * dt`. -/
noncomputable def accel_input (dt : ℝ) (keys : Keys) (b : Body ℝ) : Body ℝ :=
  let dir : Vec2 ℝ :=
    ⟨(if keys.d then (1 : ℝ) else 0) - (if keys.a then (1 : ℝ) else 0),
     (if keys.w then (1 : ℝ) else 0) - (if keys.s then (1 : ℝ) else 0)⟩
  { b with velocity :=
      b.velocity + (PLAYER_ACCEL * dt) • normalize_or_zero dir }

/-- `velocity_cap` (`physics.rs` lines 88-97) as a body phase. -/
noncomputable def velocity_cap (b : Body ℝ) : Body ℝ :=
  { b with velocity := cap_velocity b.velocity }

/-- `position_update` (`physics.rs` lines 239-244): integrate the
position by `velocity * dt`. -/
noncomputable def position_update (dt : ℝ) (b : Body ℝ) : Body ℝ :=
  { b with position := b.position + dt • b.velocity }

/-- The `FixedUpdate` schedule chained by `PhysicsPlugin::build`
(`physics.rs` lines 12-27), in source order, with the timestep, held keys
and broad-phase candidate tiles as environment. -/
noncomputable def fixedUpdateSystems (dt : ℝ) (keys : Keys)
    (tiles : List (TileEnt ℝ)) : List (Body ℝ → Body ℝ) :=
  [accel_env dt, accel_input dt keys, velocity_cap,
    check_collisions tiles, position_update dt]

/-- One fixed simulation step: run the chained systems in order. -/
noncomputable def fixedUpdateStep (dt : ℝ) (keys : Keys)
    (tiles : List (TileEnt ℝ)) (b : Body ℝ) : Body ℝ :=
  (fixedUpdateSystems dt keys tiles).foldl (fun s f => f s) b

/-- The norm scales by the absolute value of the scalar. -/
theorem Vec2.length_smul (c : ℝ) (v : Vec2 ℝ) :
    Vec2.length (c • v) = |c| * Vec2.length v := by
  show Real.sqrt ((c * v.x) ^ 2 + (c * v.y) ^ 2) = |c| * Real.sqrt (v.x ^ 2 + v.y ^ 2)
  rw [show (c * v.x) ^ 2 + (c * v.y) ^ 2 = c ^ 2 * (v.x ^ 2 + v.y ^ 2) from by ring,
    Real.sqrt_mul (sq_nonneg c), Real.sqrt_sq_eq_abs]

/-- Evaluation of the cap below the maximum. -/
theorem cap_velocity_of_lt (w : Vec2 ℝ) (h : Vec2.length w < VELOCITY_MAX) :
    cap_velocity w = w := by
  unfold cap_velocity
  rw [if_pos h]

/-- Evaluation of the cap at or above the maximum. -/
theorem cap_velocity_of_not_lt (w : Vec2 ℝ)
    (h : ¬ Vec2.length w < VELOCITY_MAX) :
    cap_velocity w = clamp_length_max w VELOCITY_MAX := by
  unfold cap_velocity
  rw [if_neg h]

/-- At or above the maximum speed, the cap returns a vector of length
exactly `VELOCITY_MAX` pointing in the same direction (a positive scalar
multiple of the input). -/
theorem cap_velocity_ge (w : Vec2 ℝ) (h : VELOCITY_MAX ≤ Vec2.length w) :
    Vec2.length (cap_velocity w) = VELOCITY_MAX ∧
    ∃ c : ℝ, 0 < c ∧ cap_velocity w = c • w := by
  have hS : (0 : ℝ) ≤ w.x ^ 2 + w.y ^ 2 := by positivity
  have hM : (0 : ℝ) < VELOCITY_MAX := by norm_num [VELOCITY_MAX]
  have hLpos : 0 < Vec2.length w := lt_of_lt_of_le hM h
  have hcap : cap_velocity w = clamp_length_max w VELOCITY_MAX :=
    cap_velocity_of_not_lt w (not_lt.mpr h)
  by_cases hgt : VELOCITY_MAX ^ 2 < w.x ^ 2 + w.y ^ 2
  · have hc : clamp_length_max w VELOCITY_MAX =
        (VELOCITY_MAX / Vec2.length w) • w := by
      unfold clamp_length_max
      rw [if_pos hgt]
      rfl
    have hcpos : 0 < VELOCITY_MAX / Vec2.length w := div_pos hM hLpos
    constructor
    · rw [hcap, hc, Vec2.length_smul, abs_of_pos hcpos]
      field_simp
    · exact ⟨_, hcpos, by rw [hcap, hc]⟩
  · push_neg at hgt
    have hle : Vec2.length w ≤ VELOCITY_MAX := by
      have hsq := Real.sqrt_le_sqrt hgt
      rw [Real.sqrt_sq (le_of_lt hM)] at hsq
      exact hsq
    have heq : Vec2.length w = VELOCITY_MAX := le_antisymm hle h
    have hc : clamp_length_max w VELOCITY_MAX = w := by
      unfold clamp_length_max
      rw [if_neg (not_lt.mpr hgt)]
    have hone : (1 : ℝ) • w = w := by
      rw [Vec2.smul_def]
      cases w
      simp
    exact ⟨by rw [hcap, hc, heq], 1, one_pos, by rw [hcap, hc, hone]⟩

/-! ## Claim C6: the velocity cap -/

/-- C6: the velocity cap is the identity on every velocity below the
maximum speed; at or above it, the result has length exactly
`VELOCITY_MAX` and is a positive scalar multiple of the input (the
direction is preserved exactly); and the cap is idempotent. -/
theorem velocity_cap_exactness (v : Vec2 ℝ) :
    (Vec2.length v < VELOCITY_MAX → cap_velocity v = v) ∧
    (VELOCITY_MAX ≤ Vec2.length v →
      Vec2.length (cap_velocity v) = VELOCITY_MAX ∧
      ∃ c : ℝ, 0 < c ∧ cap_velocity v = c • v) ∧
    cap_velocity (cap_velocity v) = cap_velocity v := by
  refine ⟨fun h => cap_velocity_of_lt v h, fun h => cap_velocity_ge v h, ?_⟩
  by_cases h : Vec2.length v < VELOCITY_MAX
  · rw [cap_velocity_of_lt v h, cap_velocity_of_lt v h]
  · push_neg at h
    have h2 := (cap_velocity_ge v h).1
    have hS : (0 : ℝ) ≤ (cap_velocity v).x ^ 2 + (cap_velocity v).y ^ 2 := by
      positivity
    have hsum : (cap_velocity v).x ^ 2 + (cap_velocity v).y ^ 2 =
        VELOCITY_MAX ^ 2 := by
      rw [← h2]
      exact (Real.sq_sqrt hS).symm
    have hnlt : ¬ Vec2.length (cap_velocity v) < VELOCITY_MAX := by
      rw [h2]
      exact lt_irrefl _
    rw [cap_velocity_of_not_lt (cap_velocity v) hnlt]
    unfold clamp_length_max
    rw [if_neg (not_lt.mpr (le_of_eq hsum))]

/-- C6 witness: the velocity `(0, 100)` (length 100, under the cap) is
unchanged; the velocity `(0, 400)` (length 400, over the cap) is clamped
to length exactly 300. -/
theorem velocity_cap_exactness_witness :
    cap_velocity ⟨0, 100⟩ = ⟨0, 100⟩ ∧
    Vec2.length (cap_velocity ⟨0, 400⟩) = VELOCITY_MAX := by
  have h1 : Vec2.length ⟨0, 100⟩ < VELOCITY_MAX := by
    show Real.sqrt ((0 : ℝ) ^ 2 + (100 : ℝ) ^ 2) < (300 : ℝ)
    rw [show ((0 : ℝ) ^ 2 + (100 : ℝ) ^ 2) = 100 ^ 2 from by norm_num,
      Real.sqrt_sq (by norm_num : (0 : ℝ) ≤ 100)]
    norm_num
  have h2 : VELOCITY_MAX ≤ Vec2.length ⟨0, 400⟩ := by
    show (300 : ℝ) ≤ Real.sqrt ((0 : ℝ) ^ 2 + (400 : ℝ) ^ 2)
    rw [show ((0 : ℝ) ^ 2 + (400 : ℝ) ^ 2) = 400 ^ 2 from by norm_num,
      Real.sqrt_sq (by norm_num : (0 : ℝ) ≤ 400)]
    norm_num
  exact ⟨(velocity_cap_exactness ⟨0, 100⟩).1 h1,
    ((velocity_cap_exactness ⟨0, 400⟩).2.1 h2).1⟩

/-! ## Claim C9: the fixed-step phase order -/

/-- C9: one fixed simulation step is exactly the composition of the five
phases in source order — environmental acceleration, then input
acceleration, then the velocity cap, then collision correction, then
position integration — and the integration phase is precisely
`position += velocity * dt` with the velocity untouched. -/
theorem fixed_step_phase_order (dt : ℝ) (keys : Keys)
    (tiles : List (TileEnt ℝ)) (b : Body ℝ) :
    fixedUpdateStep dt keys tiles b =
      position_update dt
        (check_collisions tiles
          (velocity_cap (accel_input dt keys (accel_env dt b)))) ∧
    (position_update dt b).position = b.position + dt • b.velocity ∧
    (position_update dt b).velocity = b.velocity :=
  ⟨rfl, rfl, rfl⟩
